import Mathlib

/-!
Shallow embedding of the qpaging execution engine (Rust sources under
src/engine/) and proofs about its specification claims.

Modelling conventions:
* `Complex64` (a pair of IEEE-754 binary64 values) is modelled as an element
  of an arbitrary commutative ring `A`; floating-point rounding is out of
  scope, all arithmetic is exact.  The constant `FRAC_1_SQRT_2` used by the
  `H` matrix is modelled as an abstract ring element `invSqrt2` (its value is
  irrelevant to every claim below).
* Machine `usize` arithmetic is modelled by `Nat` (the quantities involved
  never overflow in the intended N <= 34 range).
* Rust panics (index out of bounds, `split_at_mut` out of range) are modelled
  as explicit error values; `Except` errors carry the data structures as they
  stand at panic time, since an unwound panic does not roll back writes that
  already happened through the memory mapping.
* The `io_uring` ring and the `madvise` system calls are external effects
  with no influence on the state vector; `submit_prefetch` is modelled by the
  pure list of coalesced advisories it issues together with the returned
  count, and ring construction is modelled as succeeding.
* Rust's `DefaultHasher` digest of the structural circuit hash is modelled by
  the hashed data itself (the sequence of `(name, targets)` pairs fed to the
  hasher), i.e. the hash is treated as perfect/injective.
-/

set_option linter.unusedSectionVars false

namespace QPaging

/-- Rust's `str::to_uppercase`, modelled at the ASCII level (the gate names
in scope are ASCII; no non-ASCII character uppercases to "X" or "H"). -/
def upperName (s : String) : String := ⟨s.data.map Char.toUpper⟩

/-- Error values surfaced by the engine: `pyo3` I/O errors, runtime
precondition errors, and Rust panics (which `pyo3` turns into exceptions). -/
inductive EngineError where
  | ioError : String → EngineError
  | runtimeError : String → EngineError
  | panic : String → EngineError
deriving DecidableEq

instance {E B : Type} [DecidableEq E] [DecidableEq B] : DecidableEq (Except E B) := fun x y =>
  match x, y with
  | Except.ok a, Except.ok b =>
    if h : a = b then Decidable.isTrue (h ▸ rfl)
    else Decidable.isFalse (fun hc => h (Except.ok.inj hc))
  | Except.error a, Except.error b =>
    if h : a = b then Decidable.isTrue (h ▸ rfl)
    else Decidable.isFalse (fun hc => h (Except.error.inj hc))
  | Except.ok _, Except.error _ => Decidable.isFalse (fun hc => Except.noConfusion hc)
  | Except.error _, Except.ok _ => Decidable.isFalse (fun hc => Except.noConfusion hc)

/-- One gate operation, `GateOp` from src/engine/circuit.rs: a name, an
ordered list of target qubits, and real parameters (modelled in `A`). -/
structure GateOp (A : Type) where
  name : String
  targets : List Nat
  params : List A
deriving DecidableEq

/-- A 2x2 gate matrix, `[Complex64; 4]` in row-major order
`matrix[0], matrix[1], matrix[2], matrix[3]` from src/engine/kernels.rs. -/
structure GateMatrix (A : Type) where
  u00 : A
  u01 : A
  u10 : A
  u11 : A
deriving DecidableEq

variable {A : Type} [CommRing A]

/-! ## Kernels (src/engine/kernels.rs) -/

/-- Processing of one `par_chunks_mut(block_size)` chunk of
`apply_single_qubit_gate`: `split_at_mut(stride)` into `lower`/`upper`, then
for each `i < stride` write `lower[i] = u00*a0 + u01*a1` and
`upper[i] = u10*a0 + u11*a1` where `a0, a1` are the old values.  A chunk whose
length is not `2*stride` makes the Rust code panic (`split_at_mut` out of
range, or `upper[i]` out of bounds), modelled as `none`. -/
def applyChunk (matrix : GateMatrix A) (stride : Nat) (chunk : List A) : Option (List A) :=
  if chunk.length = 2 * stride then
    let lower := chunk.take stride
    let upper := chunk.drop stride
    some (List.zipWith (fun a0 a1 => matrix.u00 * a0 + matrix.u01 * a1) lower upper ++
          List.zipWith (fun a0 a1 => matrix.u10 * a0 + matrix.u11 * a1) lower upper)
  else none

/-- The chunk loop of `apply_single_qubit_gate`: the state vector is cut into
consecutive chunks of `block_size = 2 * 2^targetQubit` elements and each chunk
is processed independently (`par_chunks_mut`; the parallel execution joins
before returning, so its functional behaviour is this sequential fold). -/
def applyBlocks (matrix : GateMatrix A) (targetQubit : Nat) (l : List A) : Option (List A) :=
  match l with
  | [] => some []
  | x :: xs =>
    match applyChunk matrix (2 ^ targetQubit) ((x :: xs).take (2 * 2 ^ targetQubit)),
          applyBlocks matrix targetQubit ((x :: xs).drop (2 * 2 ^ targetQubit)) with
    | some c, some r => some (c ++ r)
    | _, _ => none
termination_by l.length
decreasing_by
  have hpos : 0 < 2 * 2 ^ targetQubit := by positivity
  simp only [List.length_drop, List.length_cons]
  omega

/-- `apply_single_qubit_gate` from src/engine/kernels.rs, at amplitude
granularity: the raw byte slice reinterpreted as `total_elements` complex
amplitudes is the list `state`. -/
def applySingleQubitGate (state : List A) (targetQubit : Nat) (matrix : GateMatrix A) :
    Option (List A) :=
  applyBlocks matrix targetQubit state

/-- `get_matrix` from src/engine/kernels.rs.  The `match` on the uppercased
name is the equality chain below; `invSqrt2` models the floating constant
`FRAC_1_SQRT_2`; unknown names default to the identity matrix. -/
def getMatrix (invSqrt2 : A) (name : String) (_params : List A) : GateMatrix A :=
  let u := upperName name
  if u = "X" then ⟨0, 1, 1, 0⟩
  else if u = "H" then ⟨invSqrt2, invSqrt2, invSqrt2, -invSqrt2⟩
  else ⟨1, 0, 0, 1⟩

/-! ## Circuit analyzer (src/engine/circuit.rs) -/

/-- Inner loop of scenario B of `get_pages_for_gate`: for `i` in
`0..pages_per_stride`, set bit `block_start + i` when it is below
`total_pages` (the Rust code's bounds guard before `pages.set`). -/
def markStride (blockStart pagesPerStride totalPages : Nat) (pages : List Bool) : List Bool :=
  (List.range pagesPerStride).foldl
    (fun acc i => if blockStart + i < totalPages then acc.set (blockStart + i) true else acc)
    pages

/-- Outer loop of scenario B: `for block_start in (0..total_pages).step_by(pages_per_block)`,
which visits `⌈total_pages / pages_per_block⌉` block starts. -/
def markBlocks (totalPages pagesPerStride pagesPerBlock : Nat) (pages : List Bool) : List Bool :=
  (List.range' 0 ((totalPages + pagesPerBlock - 1) / pagesPerBlock) pagesPerBlock).foldl
    (fun acc blockStart => markStride blockStart pagesPerStride totalPages acc)
    pages

/-- `get_pages_for_gate` from src/engine/circuit.rs.  The `BitVec` of length
`total_pages = total_bytes / page_size` is a `List Bool`; `page_size = 4096`,
`element_size = 16`, `total_bytes = 2^num_qubits * 16`. -/
def getPagesForGate {A : Type} (numQubits : Nat) (gate : GateOp A) : List Bool :=
  let totalPages := 2 ^ numQubits * 16 / 4096
  let pages := List.replicate totalPages false
  match gate.targets with
  | [] => pages
  | targetQubit :: _ =>
    let strideBytes := 2 ^ targetQubit * 16
    if strideBytes < 4096 then List.replicate totalPages true
    else
      let pagesPerStride := strideBytes / 4096
      markBlocks totalPages pagesPerStride (pagesPerStride * 2) pages

/-- `CircuitAnalyzer::analyze`: the timeline `HashMap` has exactly the dense
keys `0 .. gates.len() - 1`, so it is modelled as the list whose `i`-th entry
is the bitmap for gate `i`. -/
def analyze {A : Type} (numQubits : Nat) (gates : List (GateOp A)) : List (List Bool) :=
  gates.map (getPagesForGate numQubits)

/-! ## I/O engine (src/engine/io.rs) -/

/-- One coalesced `MADV_WILLNEED` advisory: `num_pages` pages starting at page
`start_page_idx` (arguments of `submit_madvise_op`). -/
structure Advisory where
  start : Nat
  len : Nat
deriving DecidableEq

/-- Ascending indices of the set bits of a bitmap starting at position `k`:
`pages.iter_ones()` is `onesAux 0 pages`. -/
def onesAux : Nat → List Bool → List Nat
  | _, [] => []
  | k, b :: rest => if b then k :: onesAux (k + 1) rest else onesAux (k + 1) rest

/-- The coalescing loop of `submit_prefetch` after the first set bit
initialised the current run to `(s, n)`: a subsequent index extends the run
when `idx = s + n`, otherwise the run is submitted and a new one starts; the
final run is submitted after the loop. -/
def coalesceRuns : Nat → Nat → List Nat → List Advisory
  | s, n, [] => [⟨s, n⟩]
  | s, n, idx :: rest =>
    if idx = s + n then coalesceRuns s (n + 1) rest
    else ⟨s, n⟩ :: coalesceRuns idx 1 rest

/-- `submit_prefetch` from src/engine/io.rs: the list of advisories it issues
(each `submit_madvise_op` call, in order) and the returned
`submitted_count`, which the code increments exactly once per issued
advisory.  The trailing `ring.submit()` pushes the queue to the kernel and
issues no advisory. -/
def submitPrefetch (pages : List Bool) : List Advisory × Nat :=
  match onesAux 0 pages with
  | [] => ([], 0)
  | idx :: rest =>
    let advs := coalesceRuns idx 1 rest
    (advs, advs.length)

/-- Modelled from the spec: the number of maximal runs of consecutive set
bits in a bitmap (`prev` is the value of the bit preceding the current
position, `false` at the start); used to compare `submitPrefetch` against the
spec's coalescing contract. -/
def countRuns : Bool → List Bool → Nat
  | _, [] => 0
  | prev, b :: rest => (if b && !prev then 1 else 0) + countRuns b rest

/-- Number of gaps in an ascending index list, given the next expected
index; helper for relating `coalesceRuns` to `countRuns`. -/
def gapCount : Nat → List Nat → Nat
  | _, [] => 0
  | e, i :: rest => (if i = e then 0 else 1) + gapCount (i + 1) rest

/-- Number of maximal runs described by an ascending list of set-bit
indices; helper for relating `coalesceRuns` to `countRuns`. -/
def runsOfOnes : List Nat → Nat
  | [] => 0
  | i :: r => 1 + gapCount (i + 1) r

/-! ## Memory manager (src/engine/memory.rs) -/

/-- `QuantumMemoryManager`: the mapped file contents as amplitudes, plus the
bookkeeping fields.  The mapping and file handle are external resources; the
`resident_bitmap` is the in-struct `BitVec`. -/
structure QuantumMemoryManager (A : Type) where
  state : List A
  numQubits : Nat
  totalBytes : Nat
  residentBitmap : List Bool
deriving DecidableEq

/-- `QuantumMemoryManager::new`: the file at `filepath` (current contents
`fileContents`, as amplitudes) is extended or truncated by `set_len` to
exactly `2^num_qubits * 16` bytes (extension zero-fills) and mapped; the
residency bitmap is `bitvec![0; total_pages]`, i.e. all clear, with
`total_pages = ⌈total_bytes / 4096⌉`.  The `MADV_RANDOM` advisory is an
external effect. -/
def QuantumMemoryManager.new (numQubits : Nat) (fileContents : List A) :
    QuantumMemoryManager A :=
  let totalBytes := 2 ^ numQubits * 16
  let totalElements := totalBytes / 16
  { state := fileContents.take totalElements ++
      List.replicate (totalElements - fileContents.length) 0,
    numQubits := numQubits,
    totalBytes := totalBytes,
    residentBitmap := List.replicate ((totalBytes + 4096 - 1) / 4096) false }

/-- `evict_page`: the `MADV_DONTNEED` advisory is an external effect; the
struct change is clearing bit `page_idx` of the residency bitmap. -/
def QuantumMemoryManager.evictPage (m : QuantumMemoryManager A) (pageIdx : Nat) :
    QuantumMemoryManager A :=
  { m with residentBitmap := m.residentBitmap.set pageIdx false }

/-- States of a `QuantumMemoryManager` reachable from construction by the
operations that exist in the repository: `evict_page`, and arbitrary writes
to the mapped region through `as_mut_slice` (the kernels invoked by the
controller).  `as_ptr`, `snapshot` and the `Drop` flush read the mapping but
change no field, so they need no constructor. -/
inductive QmmReachable : QuantumMemoryManager A → Prop where
  | construct (numQubits : Nat) (fileContents : List A) :
      QmmReachable (QuantumMemoryManager.new numQubits fileContents)
  | evict (m : QuantumMemoryManager A) (idx : Nat) :
      QmmReachable m → QmmReachable (m.evictPage idx)
  | write (m : QuantumMemoryManager A) (newState : List A) :
      QmmReachable m → QmmReachable { m with state := newState }

/-! ## Controller (src/engine/controller.rs) -/

/-- `SimulatorController`.  `last_circuit_hash: u64` together with
`cached_schedule` is modelled with the perfect-hash convention: the stored
digest is the hashed data itself, `none` standing for the initial state in
which nothing has been hashed (`0` with no cached schedule in the code). -/
structure SimulatorController (A : Type) where
  memory : Option (QuantumMemoryManager A)
  numQubits : Nat
  backingStore : String
  lookaheadDepth : Nat
  cachedSchedule : Option (List (List Bool))
  lastCircuitHash : Option (List (String × List Nat))
deriving DecidableEq

/-- `SimulatorController::new`. -/
def SimulatorController.new (A : Type) (numQubits : Nat) (backingStore : String) :
    SimulatorController A :=
  { memory := none, numQubits := numQubits, backingStore := backingStore,
    lookaheadDepth := 1, cachedSchedule := none, lastCircuitHash := none }

/-- One iteration of the conversion loop of `run_circuit`: read
`gate_names[i]`, `targets[i]`, `params[i]` and build a `GateOp`; an index
beyond one of the arrays is a Rust index-out-of-bounds panic. -/
def gateAt (gateNames : List String) (targets : List (List Nat)) (params : List (List A))
    (i : Nat) : Except EngineError (GateOp A) :=
  match gateNames[i]? with
  | none => Except.error (EngineError.panic "index out of bounds")
  | some n =>
    match targets[i]? with
    | none => Except.error (EngineError.panic "index out of bounds")
    | some t =>
      match params[i]? with
      | none => Except.error (EngineError.panic "index out of bounds")
      | some p => Except.ok (⟨n, t, p⟩ : GateOp A)

/-- The conversion loop of `run_circuit`: for `i in 0..gate_names.len()`,
build the `GateOp` at index `i`, stopping at the first panic.  Entries of
`targets`/`params` beyond `gate_names.len()` are never read. -/
def buildOps (gateNames : List String) (targets : List (List Nat)) (params : List (List A)) :
    Except EngineError (List (GateOp A)) :=
  (List.range gateNames.length).mapM (gateAt gateNames targets params)

/-- The execution loop of `run_circuit`: for each gate, read `op.targets[0]`
(panic when empty), build the matrix with `get_matrix`, and apply the
single-qubit kernel.  An error carries the state vector as already mutated by
the preceding gates (the mapping keeps those writes across a panic). -/
def execGates (invSqrt2 : A) (ops : List (GateOp A)) (st : List A) :
    Except (EngineError × List A) (List A) :=
  match ops with
  | [] => Except.ok st
  | op :: rest =>
    match op.targets with
    | [] => Except.error (EngineError.panic "index out of bounds", st)
    | t :: _ =>
      match applySingleQubitGate st t (getMatrix invSqrt2 op.name op.params) with
      | some st1 => execGates invSqrt2 rest st1
      | none => Except.error (EngineError.panic "split_at_mut out of range", st)

/-- The structural hash input of `run_circuit`: the sequence of
`(name, targets)` pairs fed to the `DefaultHasher`, `params` excluded; under
the perfect-hash convention this is the cached digest itself. -/
def structuralKey {A : Type} (ops : List (GateOp A)) : List (String × List Nat) :=
  ops.map (fun op => (op.name, op.targets))

/-- The cache test of `run_circuit`:
`self.last_circuit_hash == current_hash && self.cached_schedule.is_some()`. -/
def cacheHitOn {A : Type} (c : SimulatorController A)
    (key : List (String × List Nat)) : Bool :=
  decide (c.lastCircuitHash = some key) && c.cachedSchedule.isSome

/-- `run_circuit` from src/engine/controller.rs.  Returns the controller after
the call, the placeholder `vec![0.0, 0.0]`, and whether the schedule cache was
hit.  The prefetch submissions and completion reaps are external advisory
effects (mid-run prefetch errors are swallowed by `unwrap_or(0)`); the
`AsyncIoEngine::new(256)` construction is modelled as succeeding.  Errors
carry the controller as it stands at panic time. -/
def runCircuit (invSqrt2 : A) (c : SimulatorController A) (gateNames : List String)
    (targets : List (List Nat)) (params : List (List A)) :
    Except (EngineError × SimulatorController A) (SimulatorController A × List A × Bool) :=
  match c.memory with
  | none => Except.error (EngineError.runtimeError "Memory not initialized", c)
  | some mem =>
    match buildOps gateNames targets params with
    | Except.error e => Except.error (e, c)
    | Except.ok ops =>
      let currentKey := structuralKey ops
      let hit := cacheHitOn c currentKey
      let schedule := if hit then c.cachedSchedule.getD [] else analyze c.numQubits ops
      let c1 := if hit then c
        else { c with cachedSchedule := some schedule, lastCircuitHash := some currentKey }
      match execGates invSqrt2 ops mem.state with
      | Except.error (e, st1) =>
        Except.error (e, { c1 with memory := some { mem with state := st1 } })
      | Except.ok finalState =>
        Except.ok ({ c1 with memory := some { mem with state := finalState } },
          ([0, 0] : List A), hit)

/-! ## Helper lemmas -/

theorem applyBlocks_nil_eq (matrix : GateMatrix A) (q : Nat) :
    applyBlocks matrix q ([] : List A) = some [] := by
  rw [applyBlocks]

theorem applyBlocks_cons_eq (matrix : GateMatrix A) (q : Nat) (x : A) (xs : List A) :
    applyBlocks matrix q (x :: xs) =
      (match applyChunk matrix (2 ^ q) ((x :: xs).take (2 * 2 ^ q)),
             applyBlocks matrix q ((x :: xs).drop (2 * 2 ^ q)) with
       | some c, some r => some (c ++ r)
       | _, _ => none) := by
  rw [applyBlocks]

theorem getD_replicate_false (n p : Nat) : (List.replicate n false).getD p false = false := by
  induction n generalizing p with
  | zero => simp [List.getD]
  | succ n ih =>
    cases p with
    | zero => simp [List.replicate_succ]
    | succ p => simp [List.replicate_succ, ih p]

/-! ## Claim C6: dense regime marks every page -/

/-- C6: for every one-qubit gate whose target `q` satisfies `q < 8` (so
`stride_bytes = 2^q * 16 < 4096`), `get_pages_for_gate` sets every bit of the
returned page bitmap. -/
theorem analyzer_dense_all_pages {A : Type} (numQubits q : Nat) (name : String)
    (ps : List A) (hq : q < 8) :
    getPagesForGate numQubits (⟨name, [q], ps⟩ : GateOp A) =
      List.replicate (2 ^ numQubits * 16 / 4096) true := by
  have hlt : 2 ^ q * 16 < 4096 := by
    have h7 : 2 ^ q ≤ 2 ^ 7 := Nat.pow_le_pow_right (by omega) (by omega)
    omega
  simp [getPagesForGate, hlt]

/-- Witness for C6 at target qubit 3 on a 10-qubit analyzer. -/
theorem analyzer_dense_all_pages_witness :
    getPagesForGate 10 (⟨"X", [3], []⟩ : GateOp Int) =
      List.replicate (2 ^ 10 * 16 / 4096) true :=
  analyzer_dense_all_pages 10 3 "X" [] (by decide)

/-! ## Claim C2: two-qubit gates do NOT get an empty bitmap (corrected) -/

/-- Counterexample to C2: the gate `("CX", [0, 1])` has two targets, yet on a
12-qubit analyzer its returned bitmap has set bits (in fact all 16 bits are
set, because the analysis uses `targets[0] = 0`, a dense-regime qubit),
whereas the claim demands an empty bitmap. -/
theorem twoqubit_gate_bitmap_nonempty_cex :
    (getPagesForGate 12 (⟨"CX", [0, 1], []⟩ : GateOp Int)).count true ≠ 0 := by decide

/-- C2 amended: a gate with two (or more) targets is analyzed exactly like a
one-qubit gate on its first target — `get_pages_for_gate` reads only
`targets[0]` — and only a gate whose targets list is empty receives the
all-clear bitmap. -/
theorem twoqubit_gate_uses_first_target {A : Type} (numQubits : Nat) (name : String)
    (t : Nat) (rest : List Nat) (ps : List A) :
    getPagesForGate numQubits (⟨name, t :: rest, ps⟩ : GateOp A) =
      getPagesForGate numQubits (⟨name, [t], ps⟩ : GateOp A) ∧
    getPagesForGate numQubits (⟨name, [], ps⟩ : GateOp A) =
      List.replicate (2 ^ numQubits * 16 / 4096) false :=
  ⟨rfl, rfl⟩

/-! ## Claim C8: run_circuit before initialize is a precondition error -/

/-- C8: on a controller whose memory manager has not been initialized,
`run_circuit` returns the runtime precondition error "Memory not
initialized" and executes no gate (the controller is unchanged). -/
theorem run_circuit_requires_initialized (invSqrt2 : A) (c : SimulatorController A)
    (ns : List String) (ts : List (List Nat)) (ps : List (List A))
    (h : c.memory = none) :
    runCircuit invSqrt2 c ns ts ps =
      Except.error (EngineError.runtimeError "Memory not initialized", c) := by
  unfold runCircuit
  rw [h]

/-- Witness for C8 on a freshly constructed controller. -/
theorem run_circuit_requires_initialized_witness :
    runCircuit (0 : Int) (SimulatorController.new Int 4 "state.bin") ["X"] [[0]] [[]] =
      Except.error (EngineError.runtimeError "Memory not initialized",
        SimulatorController.new Int 4 "state.bin") :=
  run_circuit_requires_initialized 0 _ ["X"] [[0]] [[]] rfl

/-! ## Claim C10: the residency bitmap never has a set bit -/

/-- C10: in every reachable state of `QuantumMemoryManager` — after
construction and any sequence of `evict_page`, mapped-region writes
(`as_mut_slice` users, i.e. the kernels driven by the controller), and the
read-only operations — every bit of `resident_bitmap` is false: construction
makes it all-clear and `evict_page` only ever clears bits. -/
theorem resident_bitmap_always_clear (m : QuantumMemoryManager A)
    (h : QmmReachable m) : ∀ b ∈ m.residentBitmap, b = false := by
  induction h with
  | construct numQubits fileContents =>
    intro b hb
    exact List.eq_of_mem_replicate hb
  | evict m idx hr ih =>
    intro b hb
    rcases List.mem_or_eq_of_mem_set hb with h1 | h1
    · exact ih b h1
    · exact h1
  | write m newState hr ih =>
    exact ih

/-- Witness for C10: construct a 1-qubit manager and evict page 0. -/
theorem resident_bitmap_always_clear_witness :
    (((QuantumMemoryManager.new 1 ([1, 0] : List Int)).evictPage 0).residentBitmap.all
      (fun b => !b)) = true := by
  rw [List.all_eq_true]
  intro b hb
  rw [resident_bitmap_always_clear _
    (QmmReachable.evict _ 0 (QmmReachable.construct 1 ([1, 0] : List Int))) b hb]
  rfl

/-! ## Claim C4: submit_prefetch coalesces into one advisory per maximal run -/

theorem coalesceRuns_length (l : List Nat) : ∀ s n : Nat,
    (coalesceRuns s n l).length = 1 + gapCount (s + n) l := by
  induction l with
  | nil => intro s n; simp [coalesceRuns, gapCount]
  | cons i rest ih =>
    intro s n
    by_cases h : i = s + n
    · have hsn : s + (n + 1) = i + 1 := by omega
      simp [coalesceRuns, gapCount, h, ih, hsn]
    · simp [coalesceRuns, gapCount, h, ih]
      omega

theorem onesAux_ge (l : List Bool) : ∀ k : Nat, ∀ x ∈ onesAux k l, k ≤ x := by
  induction l with
  | nil => intro k x hx; simp [onesAux] at hx
  | cons b rest ih =>
    intro k x hx
    cases b with
    | false =>
      simp only [onesAux, Bool.false_eq_true, if_false] at hx
      exact Nat.le_of_succ_le (ih (k + 1) x hx)
    | true =>
      simp only [onesAux, if_true] at hx
      rcases List.mem_cons.mp hx with h1 | h1
      · omega
      · exact Nat.le_of_succ_le (ih (k + 1) x h1)

theorem countRuns_onesAux (l : List Bool) : ∀ k : Nat,
    countRuns true l = gapCount k (onesAux k l) ∧
    countRuns false l = runsOfOnes (onesAux k l) := by
  induction l with
  | nil => intro k; exact ⟨rfl, rfl⟩
  | cons b rest ih =>
    intro k
    cases b with
    | true =>
      constructor
      · simp [countRuns, onesAux, gapCount, (ih (k + 1)).1]
      · simp [countRuns, onesAux, runsOfOnes, (ih (k + 1)).1]
    | false =>
      constructor
      · simp only [countRuns, onesAux, Bool.false_eq_true, if_false, Bool.false_and,
          Nat.zero_add]
        cases hrest : onesAux (k + 1) rest with
        | nil =>
          have h2 := (ih (k + 1)).2
          rw [hrest] at h2
          simp [gapCount, h2, runsOfOnes]
        | cons i r =>
          have hge : k + 1 ≤ i :=
            onesAux_ge rest (k + 1) i (by rw [hrest]; exact List.mem_cons_self i r)
          have h2 := (ih (k + 1)).2
          rw [hrest] at h2
          simp only [gapCount]
          rw [if_neg (by omega)]
          simp [h2, runsOfOnes]
      · simpa [countRuns, onesAux] using (ih (k + 1)).2

theorem onesAux_nil_of_all_false (l : List Bool) (hall : ∀ b ∈ l, b = false) :
    ∀ k, onesAux k l = [] := by
  induction l with
  | nil => intro k; rfl
  | cons b rest ih =>
    intro k
    have hb : b = false := hall b (List.mem_cons_self b rest)
    subst hb
    simp only [onesAux, Bool.false_eq_true, if_false]
    exact ih (fun b hb => hall b (List.mem_cons_of_mem _ hb)) (k + 1)

/-- C4: `submit_prefetch` issues exactly one coalesced advisory per maximal
run of consecutive set bits — the returned count and the number of issued
advisories both equal the number of maximal runs — and for a bitmap with no
set bit it issues no advisory and returns 0. -/
theorem submit_prefetch_coalesces (pages : List Bool) :
    (submitPrefetch pages).2 = countRuns false pages ∧
    (submitPrefetch pages).1.length = countRuns false pages ∧
    ((∀ b ∈ pages, b = false) → submitPrefetch pages = ([], 0)) := by
  have hchar := (countRuns_onesAux pages 0).2
  unfold submitPrefetch
  cases hones : onesAux 0 pages with
  | nil =>
    rw [hones] at hchar
    simp only [runsOfOnes] at hchar
    exact ⟨by simp [hchar], by simp [hchar], fun _ => rfl⟩
  | cons idx rest =>
    rw [hones] at hchar
    simp only [runsOfOnes] at hchar
    refine ⟨?_, ?_, fun hall => ?_⟩
    · simp [hchar, coalesceRuns_length rest idx 1]
    · simp [hchar, coalesceRuns_length rest idx 1]
    · have hnil := onesAux_nil_of_all_false pages hall 0
      rw [hnil] at hones
      exact absurd hones (by simp)

/-- Witness for C4 on the empty (all-clear) bitmap. -/
theorem submit_prefetch_coalesces_witness : submitPrefetch [false, false] = ([], 0) :=
  (submit_prefetch_coalesces [false, false]).2.2 (by decide)

/-! ## Claim C3: strided regime marks the first half of each block -/

theorem markStride_succ (bs pps tp : Nat) (pages : List Bool) :
    markStride bs (pps + 1) tp pages =
      (if bs + pps < tp then (markStride bs pps tp pages).set (bs + pps) true
       else markStride bs pps tp pages) := by
  unfold markStride
  rw [List.range_succ, List.foldl_append]
  simp

theorem markStride_length (bs tp : Nat) (pages : List Bool) : ∀ pps,
    (markStride bs pps tp pages).length = pages.length := by
  intro pps
  induction pps with
  | zero => rfl
  | succ pps ih =>
    rw [markStride_succ]
    split
    · rw [List.length_set, ih]
    · exact ih

theorem getD_set_true (l : List Bool) (i p : Nat) :
    ((l.set i true).getD p false = true ↔
      ((p = i ∧ i < l.length) ∨ l.getD p false = true)) := by
  rw [List.getD_eq_getElem?_getD, List.getD_eq_getElem?_getD, List.getElem?_set]
  by_cases hip : i = p
  · subst hip
    by_cases hil : i < l.length
    · simp [hil]
    · have hnone : l[i]? = none := List.getElem?_eq_none (by omega)
      simp [hil, hnone]
  · simp [hip, Ne.symm hip]

theorem markStride_getD (bs tp p : Nat) (pages : List Bool) (hlen : pages.length = tp) :
    ∀ pps, ((markStride bs pps tp pages).getD p false = true ↔
      (pages.getD p false = true ∨ (bs ≤ p ∧ p < bs + pps ∧ p < tp))) := by
  intro pps
  induction pps with
  | zero =>
    constructor
    · intro h; exact Or.inl h
    · rintro (h | h)
      · exact h
      · omega
  | succ pps ih =>
    rw [markStride_succ]
    split
    · rename_i hbs
      rw [getD_set_true, markStride_length, hlen, ih]
      constructor
      · rintro (⟨rfl, h2⟩ | h | h)
        · exact Or.inr (by omega)
        · exact Or.inl h
        · exact Or.inr (by omega)
      · rintro (h | h)
        · exact Or.inr (Or.inl h)
        · by_cases hp : p = bs + pps
          · exact Or.inl ⟨hp, by omega⟩
          · exact Or.inr (Or.inr (by omega))
    · rename_i hbs
      rw [ih]
      constructor
      · rintro (h | h)
        · exact Or.inl h
        · exact Or.inr (by omega)
      · rintro (h | h)
        · exact Or.inl h
        · exact Or.inr (by omega)

theorem markBlocksAux_length (pps ppb tp : Nat) : ∀ (n : Nat) (pages : List Bool),
    ((List.range' 0 n ppb).foldl (fun acc bs => markStride bs pps tp acc) pages).length =
      pages.length := by
  intro n
  induction n with
  | zero => intro pages; rfl
  | succ n ih =>
    intro pages
    rw [List.range'_concat, List.foldl_append]
    simp only [List.foldl_cons, List.foldl_nil]
    rw [markStride_length, ih]

theorem markBlocksAux_getD (pps ppb tp p : Nat) : ∀ (n : Nat) (pages : List Bool),
    pages.length = tp →
    (((List.range' 0 n ppb).foldl (fun acc bs => markStride bs pps tp acc) pages).getD p false
        = true ↔
      (pages.getD p false = true ∨
        ∃ j, j < n ∧ j * ppb ≤ p ∧ p < j * ppb + pps ∧ p < tp)) := by
  intro n
  induction n with
  | zero =>
    intro pages hlen
    simp
  | succ n ih =>
    intro pages hlen
    rw [List.range'_concat, List.foldl_append]
    simp only [List.foldl_cons, List.foldl_nil, Nat.zero_add]
    rw [markStride_getD _ _ _ _ (by rw [markBlocksAux_length]; exact hlen), ih pages hlen]
    constructor
    · rintro ((h | ⟨j, hj1, hj2⟩) | ⟨h1, h2, h3⟩)
      · exact Or.inl h
      · exact Or.inr ⟨j, Nat.lt_succ_of_lt hj1, hj2⟩
      · refine Or.inr ⟨n, Nat.lt_succ_self n, ?_, ?_, h3⟩
        · rw [Nat.mul_comm]; exact h1
        · rw [Nat.mul_comm]; exact h2
    · rintro (h | ⟨j, hjlt, hj2, hj3, hj4⟩)
      · exact Or.inl (Or.inl h)
      · by_cases hjn : j = n
        · subst hjn
          refine Or.inr ⟨?_, ?_, hj4⟩
          · rw [Nat.mul_comm] at hj2; exact hj2
          · rw [Nat.mul_comm] at hj3; exact hj3
        · exact Or.inl (Or.inr ⟨j, by omega, hj2, hj3, hj4⟩)

theorem exists_block_iff (pps p c : Nat) (hpps : 0 < pps) (hp : p < c * (2 * pps)) :
    (∃ j, j < c ∧ j * (2 * pps) ≤ p ∧ p < j * (2 * pps) + pps ∧ p < c * (2 * pps)) ↔
      p % (2 * pps) < pps := by
  have hm : 0 < 2 * pps := by omega
  have hmodlt : p % (2 * pps) < 2 * pps := Nat.mod_lt _ hm
  constructor
  · rintro ⟨j, hjc, hj1, hj2, _⟩
    have hdiv : p / (2 * pps) = j := by
      apply Nat.div_eq_of_lt_le hj1
      have hexp : (j + 1) * (2 * pps) = j * (2 * pps) + 2 * pps := by
        rw [Nat.add_mul]; omega
      omega
    have hdm := Nat.div_add_mod' p (2 * pps)
    rw [hdiv] at hdm
    omega
  · intro hmod
    have hdm := Nat.div_add_mod' p (2 * pps)
    refine ⟨p / (2 * pps), (Nat.div_lt_iff_lt_mul hm).mpr hp,
      Nat.div_mul_le_self p (2 * pps), ?_, hp⟩
    omega

theorem count_true_eq_countP_range (l : List Bool) :
    l.count true = (List.range l.length).countP (fun p => l.getD p false) := by
  induction l with
  | nil => rfl
  | cons b rest ih =>
    rw [List.count_cons, List.length_cons, List.range_succ_eq_map, List.countP_cons,
      List.countP_map]
    have hcongr : (List.range rest.length).countP
        ((fun p => (b :: rest).getD p false) ∘ Nat.succ) =
        (List.range rest.length).countP (fun p => rest.getD p false) := by
      apply List.countP_congr
      intro x _
      simp [List.getD_cons_succ]
    rw [hcongr, ← ih]
    cases b <;> simp

theorem countP_range_lt (k : Nat) : ∀ m : Nat,
    (List.range m).countP (fun p => decide (p < k)) = min k m := by
  intro m
  induction m with
  | zero => simp
  | succ m ih =>
    rw [List.range_succ, List.countP_append, ih]
    simp only [List.countP_cons, List.countP_nil]
    by_cases h : m < k
    · simp [h]; omega
    · simp [h]; omega

theorem countP_range_mod (m k : Nat) (_hm : 0 < m) (hk : k ≤ m) : ∀ c : Nat,
    (List.range (c * m)).countP (fun p => decide (p % m < k)) = c * k := by
  intro c
  induction c with
  | zero => simp
  | succ c ih =>
    rw [Nat.succ_mul, List.range_add, List.countP_append, ih, List.countP_map]
    have hcongr : (List.range m).countP ((fun p => decide (p % m < k)) ∘ (c * m + ·)) =
        (List.range m).countP (fun p => decide (p < k)) := by
      apply List.countP_congr
      intro x hx
      rw [List.mem_range] at hx
      have : (c * m + x) % m = x := by
        rw [Nat.mul_comm, Nat.mul_add_mod]
        exact Nat.mod_eq_of_lt hx
      simp [Function.comp, this]
    rw [hcongr, countP_range_lt, Nat.min_eq_left hk, Nat.succ_mul]

/-- C3: for a one-qubit gate on target `q` with `8 ≤ q < num_qubits`, the
returned bitmap has `2^(num_qubits - 8)` bits, bit `p` is set exactly when
`p` lies in the first `2^(q-8)` pages of its `2 * 2^(q-8)`-page block
(`p mod 2·2^(q-8) < 2^(q-8)`), and exactly half of all bits are set. -/
theorem analyzer_strided_half_density {A : Type} (N q : Nat) (name : String)
    (ps : List A) (h8 : 8 ≤ q) (hqN : q < N) :
    (getPagesForGate N (⟨name, [q], ps⟩ : GateOp A)).length = 2 ^ (N - 8) ∧
    (∀ p, p < 2 ^ (N - 8) →
      ((getPagesForGate N (⟨name, [q], ps⟩ : GateOp A)).getD p false = true ↔
        p % (2 * 2 ^ (q - 8)) < 2 ^ (q - 8))) ∧
    (getPagesForGate N (⟨name, [q], ps⟩ : GateOp A)).count true * 2 = 2 ^ (N - 8) := by
  have hN8 : N = (N - 8) + 8 := by omega
  have hq8 : q = (q - 8) + 8 := by omega
  have htp : 2 ^ N * 16 / 4096 = 2 ^ (N - 8) := by
    conv_lhs => rw [hN8]
    rw [Nat.pow_add, Nat.mul_assoc, show (2 : Nat) ^ 8 * 16 = 4096 from rfl,
      Nat.mul_div_cancel _ (by norm_num)]
  have hnlt : ¬ (2 ^ q * 16 < 4096) := by
    have h256 : (2 : Nat) ^ 8 ≤ 2 ^ q := Nat.pow_le_pow_right (by omega) h8
    omega
  have hpps : 2 ^ q * 16 / 4096 = 2 ^ (q - 8) := by
    conv_lhs => rw [hq8]
    rw [Nat.pow_add, Nat.mul_assoc, show (2 : Nat) ^ 8 * 16 = 4096 from rfl,
      Nat.mul_div_cancel _ (by norm_num)]
  have hppspos : 0 < 2 ^ (q - 8) := Nat.pos_pow_of_pos _ (by omega)
  have hpow1 : 2 * 2 ^ (q - 8) = 2 ^ (q - 7) := by
    rw [Nat.mul_comm, ← Nat.pow_succ]
    congr 1
    omega
  -- the bitmap in closed form (with the block size written as 2 * 2^(q-8))
  have hbm : getPagesForGate N (⟨name, [q], ps⟩ : GateOp A) =
      markBlocks (2 ^ (N - 8)) (2 ^ (q - 8)) (2 * 2 ^ (q - 8))
        (List.replicate (2 ^ (N - 8)) false) := by
    simp only [getPagesForGate, hnlt, if_false, htp, hpps, Nat.mul_comm (2 ^ (q - 8)) 2]
  -- the total page count is an exact multiple of the block size
  have hc : 2 ^ (N - 8) = 2 ^ (N - 8 - (q - 7)) * (2 * 2 ^ (q - 8)) := by
    rw [hpow1, ← Nat.pow_add]
    congr 1
    omega
  have hnb : (2 ^ (N - 8) + 2 * 2 ^ (q - 8) - 1) / (2 * 2 ^ (q - 8)) =
      2 ^ (N - 8 - (q - 7)) := by
    conv_lhs => rw [hc]
    rw [Nat.add_sub_assoc (by omega),
      Nat.mul_comm (2 ^ (N - 8 - (q - 7))) (2 * 2 ^ (q - 8)),
      Nat.mul_add_div (by omega),
      Nat.div_eq_of_lt (by omega)]
    omega
  have hlenrep : (List.replicate (2 ^ (N - 8)) false).length = 2 ^ (N - 8) :=
    List.length_replicate _ _
  have hlen : (getPagesForGate N (⟨name, [q], ps⟩ : GateOp A)).length = 2 ^ (N - 8) := by
    rw [hbm]
    unfold markBlocks
    rw [markBlocksAux_length, hlenrep]
  have hchar : ∀ p, p < 2 ^ (N - 8) →
      ((getPagesForGate N (⟨name, [q], ps⟩ : GateOp A)).getD p false = true ↔
        p % (2 * 2 ^ (q - 8)) < 2 ^ (q - 8)) := by
    intro p hp
    rw [hbm]
    unfold markBlocks
    rw [hnb, markBlocksAux_getD _ _ _ _ _ _ hlenrep, getD_replicate_false]
    simp only [Bool.false_eq_true, false_or]
    rw [← exists_block_iff (2 ^ (q - 8)) p (2 ^ (N - 8 - (q - 7))) hppspos (hc ▸ hp)]
    constructor
    · rintro ⟨j, hj1, hj2, hj3, _⟩
      exact ⟨j, hj1, hj2, hj3, hc ▸ hp⟩
    · rintro ⟨j, hj1, hj2, hj3, _⟩
      exact ⟨j, hj1, hj2, hj3, hp⟩
  refine ⟨hlen, hchar, ?_⟩
  rw [count_true_eq_countP_range, hlen]
  have hcongr : (List.range (2 ^ (N - 8))).countP
      (fun p => (getPagesForGate N (⟨name, [q], ps⟩ : GateOp A)).getD p false) =
      (List.range (2 ^ (N - 8))).countP
        (fun p => decide (p % (2 * 2 ^ (q - 8)) < 2 ^ (q - 8))) := by
    apply List.countP_congr
    intro p hp
    rw [List.mem_range] at hp
    rw [decide_eq_true_eq]
    exact hchar p hp
  rw [hcongr]
  conv_lhs => rw [hc]
  rw [countP_range_mod _ _ (by omega) (by omega), Nat.mul_assoc, ← Nat.pow_succ,
    show (q - 8).succ = q - 7 from by omega, ← Nat.pow_add]
  congr 1
  omega

/-- Witness for C3: spec scenario 4, a gate on qubit 10 of a 12-qubit
analyzer (16 pages, blocks of 8, first 4 of each set). -/
theorem analyzer_strided_half_density_witness :
    (getPagesForGate 12 (⟨"X", [10], []⟩ : GateOp Int)).length = 2 ^ (12 - 8) ∧
    (∀ p, p < 2 ^ (12 - 8) →
      ((getPagesForGate 12 (⟨"X", [10], []⟩ : GateOp Int)).getD p false = true ↔
        p % (2 * 2 ^ (10 - 8)) < 2 ^ (10 - 8))) ∧
    (getPagesForGate 12 (⟨"X", [10], []⟩ : GateOp Int)).count true * 2 = 2 ^ (12 - 8) :=
  analyzer_strided_half_density 12 10 "X" [] (by decide) (by decide)

/-! ## Claim C1: single-qubit kernel update rule -/

theorem getD_take_of_lt {α : Type} (l : List α) (n i : Nat) (d : α) (h : i < n) :
    (l.take n).getD i d = l.getD i d := by
  by_cases hl : i < l.length
  · rw [List.getD_eq_getElem _ _ (by rw [List.length_take]; omega),
      List.getD_eq_getElem _ _ hl, List.getElem_take]
  · rw [List.getD_eq_default _ _ (by rw [List.length_take]; omega),
      List.getD_eq_default _ _ (by omega)]

theorem getD_drop_add {α : Type} (l : List α) (n i : Nat) (d : α) :
    (l.drop n).getD i d = l.getD (n + i) d := by
  by_cases h : n + i < l.length
  · rw [List.getD_eq_getElem _ _ (by rw [List.length_drop]; omega),
      List.getD_eq_getElem _ _ h, List.getElem_drop]
  · rw [List.getD_eq_default _ _ (by rw [List.length_drop]; omega),
      List.getD_eq_default _ _ (by omega)]

theorem applyChunk_spec (matrix : GateMatrix A) (q : Nat) (chunk : List A)
    (h : chunk.length = 2 * 2 ^ q) :
    ∃ c, applyChunk matrix (2 ^ q) chunk = some c ∧ c.length = 2 * 2 ^ q ∧
      (∀ i, i < 2 ^ q →
        c.getD i 0 =
          matrix.u00 * chunk.getD i 0 + matrix.u01 * chunk.getD (2 ^ q + i) 0) ∧
      (∀ i, i < 2 ^ q →
        c.getD (2 ^ q + i) 0 =
          matrix.u10 * chunk.getD i 0 + matrix.u11 * chunk.getD (2 ^ q + i) 0) := by
  have hlow : (chunk.take (2 ^ q)).length = 2 ^ q := by
    rw [List.length_take]; omega
  have hupp : (chunk.drop (2 ^ q)).length = 2 ^ q := by
    rw [List.length_drop]; omega
  have hz1 : (List.zipWith (fun a0 a1 => matrix.u00 * a0 + matrix.u01 * a1)
      (chunk.take (2 ^ q)) (chunk.drop (2 ^ q))).length = 2 ^ q := by
    rw [List.length_zipWith, hlow, hupp]; omega
  have hz2 : (List.zipWith (fun a0 a1 => matrix.u10 * a0 + matrix.u11 * a1)
      (chunk.take (2 ^ q)) (chunk.drop (2 ^ q))).length = 2 ^ q := by
    rw [List.length_zipWith, hlow, hupp]; omega
  refine ⟨_, by rw [applyChunk, if_pos h], ?_, ?_, ?_⟩
  · rw [List.length_append, hz1, hz2]; omega
  · intro i hi
    rw [List.getD_append _ _ _ _ (by omega),
      List.getD_eq_getElem _ _ (by omega), List.getElem_zipWith,
      ← List.getD_eq_getElem _ (0 : A) (by omega), ← List.getD_eq_getElem _ (0 : A) (by omega),
      getD_take_of_lt _ _ _ _ hi, getD_drop_add]
  · intro i hi
    rw [List.getD_append_right _ _ _ _ (by omega),
      show 2 ^ q + i - (List.zipWith (fun a0 a1 => matrix.u00 * a0 + matrix.u01 * a1)
        (chunk.take (2 ^ q)) (chunk.drop (2 ^ q))).length = i from by omega,
      List.getD_eq_getElem _ _ (by omega), List.getElem_zipWith,
      ← List.getD_eq_getElem _ (0 : A) (by omega), ← List.getD_eq_getElem _ (0 : A) (by omega),
      getD_take_of_lt _ _ _ _ hi, getD_drop_add]

theorem applyBlocks_spec (matrix : GateMatrix A) (q : Nat) : ∀ (c : Nat) (l : List A),
    l.length = c * (2 * 2 ^ q) →
    ∃ r, applyBlocks matrix q l = some r ∧ r.length = l.length ∧
      ∀ b, b < c → ∀ i, i < 2 ^ q →
        (r.getD (b * (2 * 2 ^ q) + i) 0 =
          matrix.u00 * l.getD (b * (2 * 2 ^ q) + i) 0 +
          matrix.u01 * l.getD (b * (2 * 2 ^ q) + 2 ^ q + i) 0) ∧
        (r.getD (b * (2 * 2 ^ q) + 2 ^ q + i) 0 =
          matrix.u10 * l.getD (b * (2 * 2 ^ q) + i) 0 +
          matrix.u11 * l.getD (b * (2 * 2 ^ q) + 2 ^ q + i) 0) := by
  intro c
  induction c with
  | zero =>
    intro l hl
    have hnil : l = [] := List.eq_nil_of_length_eq_zero (by omega)
    subst hnil
    exact ⟨[], by rw [applyBlocks], rfl, fun b hb => absurd hb (by omega)⟩
  | succ c ih =>
    intro l hl
    have hblk : 0 < 2 * 2 ^ q := by positivity
    have hmul : (c + 1) * (2 * 2 ^ q) = c * (2 * 2 ^ q) + 2 * 2 ^ q := by
      rw [Nat.add_mul]; omega
    have hlen2 : 2 * 2 ^ q ≤ l.length := by omega
    cases l with
    | nil =>
      exfalso
      rw [List.length_nil] at hl
      omega
    | cons x xs =>
      have htake : ((x :: xs).take (2 * 2 ^ q)).length = 2 * 2 ^ q := by
        rw [List.length_take]
        exact Nat.min_eq_left hlen2
      obtain ⟨ch, hch, hchlen, hchlow, hchhigh⟩ := applyChunk_spec matrix q _ htake
      have hdrop : ((x :: xs).drop (2 * 2 ^ q)).length = c * (2 * 2 ^ q) := by
        rw [List.length_drop]
        omega
      obtain ⟨r', hr', hr'len, hr'spec⟩ := ih _ hdrop
      refine ⟨ch ++ r', ?_, ?_, ?_⟩
      · rw [applyBlocks, hch, hr']
      · rw [List.length_append, hchlen, hr'len, hdrop]
        omega
      · intro b hb i hi
        have hq2 : (2 : Nat) ^ q < 2 * 2 ^ q := by omega
        cases b with
        | zero =>
          simp only [Nat.zero_mul, Nat.zero_add]
          have hgl : (ch ++ r').getD i 0 = ch.getD i 0 :=
            List.getD_append _ _ _ _ (by omega)
          have hgh : (ch ++ r').getD (2 ^ q + i) 0 = ch.getD (2 ^ q + i) 0 :=
            List.getD_append _ _ _ _ (by omega)
          have hcl : ((x :: xs).take (2 * 2 ^ q)).getD i 0 = (x :: xs).getD i 0 :=
            getD_take_of_lt _ _ _ _ (by omega)
          have hcu : ((x :: xs).take (2 * 2 ^ q)).getD (2 ^ q + i) 0 =
              (x :: xs).getD (2 ^ q + i) 0 :=
            getD_take_of_lt _ _ _ _ (by omega)
          rw [hgl, hgh, hchlow i hi, hchhigh i hi, hcl, hcu]
          exact ⟨rfl, rfl⟩
        | succ b' =>
          have hb' : b' < c := by omega
          have hidx1 : (b' + 1) * (2 * 2 ^ q) + i =
              2 * 2 ^ q + (b' * (2 * 2 ^ q) + i) := by
            rw [Nat.add_mul]; omega
          have hidx2 : (b' + 1) * (2 * 2 ^ q) + 2 ^ q + i =
              2 * 2 ^ q + (b' * (2 * 2 ^ q) + 2 ^ q + i) := by
            rw [Nat.add_mul]; omega
          have happ : ∀ t : Nat, (ch ++ r').getD (2 * 2 ^ q + t) 0 = r'.getD t 0 := by
            intro t
            rw [List.getD_append_right _ _ _ _ (by omega), hchlen]
            congr 1
            omega
          have hl2 : ∀ t : Nat, (x :: xs).getD (2 * 2 ^ q + t) 0 =
              ((x :: xs).drop (2 * 2 ^ q)).getD t 0 := by
            intro t
            rw [getD_drop_add]
          rw [hidx1, hidx2, happ, happ, hl2, hl2]
          exact hr'spec b' hb' i hi

/-- C1: `apply_single_qubit_gate` on a state of `2^N` amplitudes with target
`q < N` partitions the state into consecutive blocks of `2^(q+1)` amplitudes
and, for every block `b` and paired index `i < 2^q`, replaces the lower
element with `u00*a0 + u01*a1` and the upper element with `u10*a0 + u11*a1`
(where `a0`, `a1` are the old lower/upper values); the length is unchanged
and, since every index of the state belongs to exactly one such pair, no
other amplitude is changed.  (The claim's "finite components" qualifier is
the floating-point caveat; arithmetic is modelled exactly.) -/
theorem apply_single_qubit_gate_spec (matrix : GateMatrix A) (N q : Nat) (state : List A)
    (hlen : state.length = 2 ^ N) (hq : q < N) :
    ∃ r, applySingleQubitGate state q matrix = some r ∧ r.length = state.length ∧
      ∀ b, b < 2 ^ (N - (q + 1)) → ∀ i, i < 2 ^ q →
        (r.getD (b * (2 * 2 ^ q) + i) 0 =
          matrix.u00 * state.getD (b * (2 * 2 ^ q) + i) 0 +
          matrix.u01 * state.getD (b * (2 * 2 ^ q) + 2 ^ q + i) 0) ∧
        (r.getD (b * (2 * 2 ^ q) + 2 ^ q + i) 0 =
          matrix.u10 * state.getD (b * (2 * 2 ^ q) + i) 0 +
          matrix.u11 * state.getD (b * (2 * 2 ^ q) + 2 ^ q + i) 0) := by
  have hdecomp : state.length = 2 ^ (N - (q + 1)) * (2 * 2 ^ q) := by
    rw [hlen]
    have h1 : 2 * 2 ^ q = 2 ^ (q + 1) := by rw [Nat.mul_comm, ← Nat.pow_succ]
    rw [h1, ← Nat.pow_add]
    congr 1
    omega
  exact applyBlocks_spec matrix q _ state hdecomp

/-- Witness for C1: a 2-qubit state `[1,2,3,4]`, target qubit 0, matrix
`[5,6,7,8]`. -/
theorem apply_single_qubit_gate_spec_witness :
    ∃ r, applySingleQubitGate ([1, 2, 3, 4] : List Int) 0 ⟨5, 6, 7, 8⟩ = some r ∧
      r.length = ([1, 2, 3, 4] : List Int).length ∧
      ∀ b, b < 2 ^ (2 - (0 + 1)) → ∀ i, i < 2 ^ 0 →
        (r.getD (b * (2 * 2 ^ 0) + i) 0 =
          (5 : Int) * ([1, 2, 3, 4] : List Int).getD (b * (2 * 2 ^ 0) + i) 0 +
          6 * ([1, 2, 3, 4] : List Int).getD (b * (2 * 2 ^ 0) + 2 ^ 0 + i) 0) ∧
        (r.getD (b * (2 * 2 ^ 0) + 2 ^ 0 + i) 0 =
          (7 : Int) * ([1, 2, 3, 4] : List Int).getD (b * (2 * 2 ^ 0) + i) 0 +
          8 * ([1, 2, 3, 4] : List Int).getD (b * (2 * 2 ^ 0) + 2 ^ 0 + i) 0) :=
  apply_single_qubit_gate_spec ⟨5, 6, 7, 8⟩ 2 0 [1, 2, 3, 4] (by decide) (by decide)

/-! ## Controller support lemmas -/

theorem mapM_except_congr {E B : Type} (l : List Nat) (f g : Nat → Except E B)
    (h : ∀ x ∈ l, f x = g x) : l.mapM f = l.mapM g := by
  induction l with
  | nil => rfl
  | cons a l ih =>
    rw [List.mapM_cons, List.mapM_cons, h a (List.mem_cons_self a l),
      ih (fun x hx => h x (List.mem_cons_of_mem a hx))]

theorem mapM_except_map {E B : Type} (l : List Nat) (g : Nat → Nat) (f : Nat → Except E B) :
    (l.map g).mapM f = l.mapM (fun x => f (g x)) := by
  induction l with
  | nil => rfl
  | cons a l ih => rw [List.map_cons, List.mapM_cons, List.mapM_cons, ih]

theorem buildOps_nil (ts : List (List Nat)) (ps : List (List A)) :
    buildOps ([] : List String) ts ps = Except.ok [] := rfl

theorem gateAt_succ (n : String) (ns : List String) (t : List Nat) (ts2 : List (List Nat))
    (p : List A) (ps2 : List (List A)) (x : Nat) :
    gateAt (n :: ns) (t :: ts2) (p :: ps2) (Nat.succ x) = gateAt ns ts2 ps2 x := by
  simp only [gateAt, Nat.succ_eq_add_one, List.getElem?_cons_succ]

theorem gateAt_zero_ok (n : String) (ns : List String) (t : List Nat)
    (ts2 : List (List Nat)) (p : List A) (ps2 : List (List A)) :
    gateAt (n :: ns) (t :: ts2) (p :: ps2) 0 = Except.ok (⟨n, t, p⟩ : GateOp A) := by
  simp only [gateAt, List.getElem?_cons_zero]

theorem buildOps_cons_nil_ts (n : String) (ns : List String) (ps : List (List A)) :
    buildOps (A := A) (n :: ns) [] ps =
      Except.error (EngineError.panic "index out of bounds") := by
  unfold buildOps
  rw [List.length_cons, List.range_succ_eq_map, List.mapM_cons]
  have h0 : gateAt (A := A) (n :: ns) [] ps 0 =
      Except.error (EngineError.panic "index out of bounds") := by
    simp only [gateAt, List.getElem?_cons_zero, List.getElem?_nil]
  rw [h0]
  rfl

theorem buildOps_cons_nil_ps (n : String) (ns : List String) (t : List Nat)
    (ts2 : List (List Nat)) :
    buildOps (A := A) (n :: ns) (t :: ts2) [] =
      Except.error (EngineError.panic "index out of bounds") := by
  unfold buildOps
  rw [List.length_cons, List.range_succ_eq_map, List.mapM_cons]
  have h0 : gateAt (A := A) (n :: ns) (t :: ts2) [] 0 =
      Except.error (EngineError.panic "index out of bounds") := by
    simp only [gateAt, List.getElem?_cons_zero, List.getElem?_nil]
  rw [h0]
  rfl

theorem buildOps_cons_cons (n : String) (ns : List String) (t : List Nat)
    (ts2 : List (List Nat)) (p : List A) (ps2 : List (List A)) :
    buildOps (n :: ns) (t :: ts2) (p :: ps2) =
      (match buildOps ns ts2 ps2 with
       | Except.ok ops => Except.ok ((⟨n, t, p⟩ : GateOp A) :: ops)
       | Except.error e => Except.error e) := by
  unfold buildOps
  rw [List.length_cons, List.range_succ_eq_map, List.mapM_cons, mapM_except_map,
    mapM_except_congr (List.range ns.length)
      (fun x => gateAt (n :: ns) (t :: ts2) (p :: ps2) (Nat.succ x))
      (gateAt ns ts2 ps2) (fun x _ => gateAt_succ n ns t ts2 p ps2 x),
    gateAt_zero_ok]
  cases hb : (List.range ns.length).mapM (gateAt ns ts2 ps2) with
  | ok ops => rfl
  | error e => rfl

theorem buildOps_ok_key (ns : List String) : ∀ (ts : List (List Nat)) (ps : List (List A))
    (ops : List (GateOp A)), buildOps ns ts ps = Except.ok ops →
    structuralKey ops = ns.zip ts := by
  induction ns with
  | nil =>
    intro ts ps ops h
    rw [buildOps_nil] at h
    cases h
    rfl
  | cons n ns ih =>
    intro ts ps ops h
    cases ts with
    | nil => rw [buildOps_cons_nil_ts] at h; cases h
    | cons t ts2 =>
      cases ps with
      | nil => rw [buildOps_cons_nil_ps] at h; cases h
      | cons p ps2 =>
        rw [buildOps_cons_cons] at h
        cases hb : buildOps ns ts2 ps2 with
        | error e => rw [hb] at h; cases h
        | ok ops2 =>
          rw [hb] at h
          simp only [Except.ok.injEq] at h
          subst h
          simp only [structuralKey, List.map_cons, List.zip_cons_cons]
          have hkey := ih ts2 ps2 ops2 hb
          rw [structuralKey] at hkey
          rw [hkey]

theorem buildOps_error_of_short (ns : List String) : ∀ (ts : List (List Nat))
    (ps : List (List A)), (ts.length < ns.length ∨ ps.length < ns.length) →
    buildOps (A := A) ns ts ps = Except.error (EngineError.panic "index out of bounds") := by
  induction ns with
  | nil =>
    intro ts ps h
    simp at h
  | cons n ns ih =>
    intro ts ps h
    cases ts with
    | nil => exact buildOps_cons_nil_ts n ns ps
    | cons t ts2 =>
      cases ps with
      | nil => exact buildOps_cons_nil_ps n ns t ts2
      | cons p ps2 =>
        have h2 : ts2.length < ns.length ∨ ps2.length < ns.length := by
          simp only [List.length_cons] at h
          omega
        rw [buildOps_cons_cons, ih ts2 ps2 h2]

theorem buildOps_ok_of_lengths (ns : List String) : ∀ (ts : List (List Nat))
    (ps : List (List A)), ns.length ≤ ts.length → ns.length ≤ ps.length →
    ∃ ops, buildOps (A := A) ns ts ps = Except.ok ops := by
  induction ns with
  | nil => intro ts ps _ _; exact ⟨[], rfl⟩
  | cons n ns ih =>
    intro ts ps h1 h2
    cases ts with
    | nil => simp at h1
    | cons t ts2 =>
      cases ps with
      | nil => simp at h2
      | cons p ps2 =>
        obtain ⟨ops2, hb⟩ := ih ts2 ps2 (by simp at h1; omega) (by simp at h2; omega)
        refine ⟨⟨n, t, p⟩ :: ops2, ?_⟩
        rw [buildOps_cons_cons, hb]

theorem runCircuit_eq_of_build_error (invSqrt2 : A) (c : SimulatorController A)
    (mem : QuantumMemoryManager A) (ns : List String) (ts : List (List Nat))
    (ps : List (List A)) (e : EngineError)
    (hm : c.memory = some mem) (hb : buildOps ns ts ps = Except.error e) :
    runCircuit invSqrt2 c ns ts ps = Except.error (e, c) := by
  simp only [runCircuit, hm, hb]

theorem runCircuit_eq_of_exec_error (invSqrt2 : A) (c : SimulatorController A)
    (mem : QuantumMemoryManager A) (ns : List String) (ts : List (List Nat))
    (ps : List (List A)) (ops : List (GateOp A)) (e : EngineError) (st1 : List A)
    (hm : c.memory = some mem) (hb : buildOps ns ts ps = Except.ok ops)
    (he : execGates invSqrt2 ops mem.state = Except.error (e, st1)) :
    runCircuit invSqrt2 c ns ts ps = Except.error (e,
      { (if cacheHitOn c (structuralKey ops) then c
         else { c with
           cachedSchedule := some (if cacheHitOn c (structuralKey ops)
             then c.cachedSchedule.getD [] else analyze c.numQubits ops),
           lastCircuitHash := some (structuralKey ops) })
        with memory := some { mem with state := st1 } }) := by
  simp only [runCircuit, hm, hb, he]

theorem runCircuit_eq_of_ok (invSqrt2 : A) (c : SimulatorController A)
    (mem : QuantumMemoryManager A) (ns : List String) (ts : List (List Nat))
    (ps : List (List A)) (ops : List (GateOp A)) (finalState : List A)
    (hm : c.memory = some mem) (hb : buildOps ns ts ps = Except.ok ops)
    (he : execGates invSqrt2 ops mem.state = Except.ok finalState) :
    runCircuit invSqrt2 c ns ts ps = Except.ok
      ({ (if cacheHitOn c (structuralKey ops) then c
          else { c with
            cachedSchedule := some (if cacheHitOn c (structuralKey ops)
              then c.cachedSchedule.getD [] else analyze c.numQubits ops),
            lastCircuitHash := some (structuralKey ops) })
          with memory := some { mem with state := finalState } },
        ([0, 0] : List A), cacheHitOn c (structuralKey ops)) := by
  simp only [runCircuit, hm, hb, he]

/-! ## Claim C9: unknown gate names dispatch to the identity matrix -/

theorem zipWith_first (l1 : List A) : ∀ (l2 : List A), l1.length = l2.length →
    List.zipWith (fun a0 _ => a0) l1 l2 = l1 := by
  induction l1 with
  | nil => intro l2 _; rfl
  | cons a l1 ih =>
    intro l2 h
    cases l2 with
    | nil => simp at h
    | cons b l2 =>
      rw [List.zipWith_cons_cons, ih l2 (by simp at h; omega)]

theorem zipWith_second (l1 : List A) : ∀ (l2 : List A), l1.length = l2.length →
    List.zipWith (fun _ a1 => a1) l1 l2 = l2 := by
  induction l1 with
  | nil =>
    intro l2 h
    cases l2 with
    | nil => rfl
    | cons b l2 => simp at h
  | cons a l1 ih =>
    intro l2 h
    cases l2 with
    | nil => simp at h
    | cons b l2 =>
      rw [List.zipWith_cons_cons, ih l2 (by simp at h; omega)]

theorem pow_split (N q : Nat) (hq : q < N) :
    2 ^ N = 2 ^ (N - (q + 1)) * (2 * 2 ^ q) := by
  have h1 : 2 * 2 ^ q = 2 ^ (q + 1) := by rw [Nat.mul_comm, ← Nat.pow_succ]
  rw [h1, ← Nat.pow_add]
  congr 1
  omega

theorem applyChunk_id (q : Nat) (chunk : List A) (h : chunk.length = 2 * 2 ^ q) :
    applyChunk (⟨1, 0, 0, 1⟩ : GateMatrix A) (2 ^ q) chunk = some chunk := by
  rw [applyChunk, if_pos h]
  have hlow : (chunk.take (2 ^ q)).length = 2 ^ q := by
    rw [List.length_take]; omega
  have hupp : (chunk.drop (2 ^ q)).length = 2 ^ q := by
    rw [List.length_drop]; omega
  have h1 : List.zipWith (fun a0 a1 => (1 : A) * a0 + 0 * a1)
      (chunk.take (2 ^ q)) (chunk.drop (2 ^ q)) = chunk.take (2 ^ q) := by
    simp only [one_mul, zero_mul, add_zero]
    exact zipWith_first _ _ (by omega)
  have h2 : List.zipWith (fun a0 a1 => (0 : A) * a0 + 1 * a1)
      (chunk.take (2 ^ q)) (chunk.drop (2 ^ q)) = chunk.drop (2 ^ q) := by
    simp only [one_mul, zero_mul, zero_add]
    exact zipWith_second _ _ (by omega)
  simp only [h1, h2, List.take_append_drop]

theorem applyBlocks_id (q : Nat) : ∀ (c : Nat) (l : List A),
    l.length = c * (2 * 2 ^ q) →
    applyBlocks (⟨1, 0, 0, 1⟩ : GateMatrix A) q l = some l := by
  intro c
  induction c with
  | zero =>
    intro l hl
    have hnil : l = [] := List.eq_nil_of_length_eq_zero (by omega)
    subst hnil
    rw [applyBlocks]
  | succ c ih =>
    intro l hl
    have hblk : 0 < 2 * 2 ^ q := by positivity
    have hmul : (c + 1) * (2 * 2 ^ q) = c * (2 * 2 ^ q) + 2 * 2 ^ q := by
      rw [Nat.add_mul]; omega
    cases l with
    | nil =>
      exfalso
      rw [List.length_nil] at hl
      omega
    | cons x xs =>
      have htake : ((x :: xs).take (2 * 2 ^ q)).length = 2 * 2 ^ q := by
        rw [List.length_take]
        exact Nat.min_eq_left (by omega)
      have hdrop : ((x :: xs).drop (2 * 2 ^ q)).length = c * (2 * 2 ^ q) := by
        rw [List.length_drop]
        omega
      rw [applyBlocks, applyChunk_id q _ htake, ih _ hdrop]
      simp [List.take_append_drop]

/-- C9: `get_matrix` returns the identity matrix for every name that is not
"X" or "H" up to case (in particular for "CX"), and `run_circuit` then routes
such a gate through the single-qubit kernel on `targets[0]`, which leaves the
state vector unchanged (every amplitude; the claim's "finite" qualifier is
the floating-point caveat, arithmetic being modelled exactly). -/
theorem unknown_gate_identity (invSqrt2 : A) (c : SimulatorController A)
    (mem : QuantumMemoryManager A) (name : String) (ps : List A) (q N : Nat)
    (hx : upperName name ≠ "X") (hh : upperName name ≠ "H")
    (hmem : c.memory = some mem) (hlen : mem.state.length = 2 ^ N) (hq : q < N) :
    getMatrix invSqrt2 name ps = (⟨1, 0, 0, 1⟩ : GateMatrix A) ∧
    ∃ out, runCircuit invSqrt2 c [name] [[q]] [ps] = Except.ok out ∧
      out.1.memory = some mem ∧ out.2.1 = ([0, 0] : List A) := by
  have hmat : getMatrix invSqrt2 name ps = (⟨1, 0, 0, 1⟩ : GateMatrix A) := by
    rw [getMatrix]
    simp only [hx, hh, if_false]
  have happly : applySingleQubitGate mem.state q (getMatrix invSqrt2 name ps) =
      some mem.state := by
    rw [hmat]
    exact applyBlocks_id q (2 ^ (N - (q + 1))) mem.state (by rw [hlen, pow_split N q hq])
  have hbo : buildOps [name] [[q]] [ps] = Except.ok [(⟨name, [q], ps⟩ : GateOp A)] := by
    rw [buildOps_cons_cons, buildOps_nil]
  have hexec : execGates invSqrt2 [(⟨name, [q], ps⟩ : GateOp A)] mem.state =
      Except.ok mem.state := by
    simp only [execGates]
    rw [happly]
  refine ⟨hmat, ?_⟩
  rw [runCircuit_eq_of_ok invSqrt2 c mem _ _ _ _ _ hmem hbo hexec]
  exact ⟨_, rfl, rfl, rfl⟩

/-- Witness for C9: gate name "CX" on a 1-qubit state `[5, 7]`. -/
theorem unknown_gate_identity_witness :
    getMatrix (0 : Int) "CX" [] = (⟨1, 0, 0, 1⟩ : GateMatrix Int) ∧
    ∃ out, runCircuit (0 : Int)
        (⟨some ⟨[5, 7], 1, 32, [false]⟩, 1, "f", 1, none, none⟩ : SimulatorController Int)
        ["CX"] [[0]] [[]] = Except.ok out ∧
      out.1.memory = some (⟨[5, 7], 1, 32, [false]⟩ : QuantumMemoryManager Int) ∧
      out.2.1 = ([0, 0] : List Int) :=
  unknown_gate_identity 0 _ _ "CX" [] 0 1 (by decide) (by decide) rfl (by decide) (by decide)

/-! ## Claim C5: schedule cache hit iff identical (name, targets) sequences -/

theorem runCircuit_ok_cache_fields (invSqrt2 : A) (c c1 : SimulatorController A)
    (ns : List String) (ts : List (List Nat)) (ps : List (List A)) (r : List A) (hit : Bool)
    (h : runCircuit invSqrt2 c ns ts ps = Except.ok (c1, r, hit)) :
    c1.lastCircuitHash = some (ns.zip ts) ∧ c1.cachedSchedule.isSome = true ∧
    hit = cacheHitOn c (ns.zip ts) := by
  cases hm : c.memory with
  | none =>
    rw [run_circuit_requires_initialized invSqrt2 c ns ts ps hm] at h
    simp at h
  | some mem =>
    cases hb : buildOps ns ts ps with
    | error e =>
      rw [runCircuit_eq_of_build_error invSqrt2 c mem ns ts ps e hm hb] at h
      simp at h
    | ok ops =>
      cases he : execGates invSqrt2 ops mem.state with
      | error ep =>
        obtain ⟨e1, st1⟩ := ep
        rw [runCircuit_eq_of_exec_error invSqrt2 c mem ns ts ps ops e1 st1 hm hb he] at h
        simp at h
      | ok finalState =>
        rw [runCircuit_eq_of_ok invSqrt2 c mem ns ts ps ops finalState hm hb he] at h
        have hkey : structuralKey ops = ns.zip ts := buildOps_ok_key ns ts ps ops hb
        rw [hkey] at h
        injection h with h1
        injection h1 with hc1 h2
        injection h2 with hr hhit
        subst hc1
        subst hhit
        refine ⟨?_, ?_, rfl⟩
        · cases hB : cacheHitOn c (ns.zip ts) with
          | true =>
            have hB2 := hB
            rw [cacheHitOn, Bool.and_eq_true, decide_eq_true_eq] at hB2
            simp [hB]
            exact hB2.1
          | false => simp [hB]
        · cases hB : cacheHitOn c (ns.zip ts) with
          | true =>
            have hB2 := hB
            rw [cacheHitOn, Bool.and_eq_true, decide_eq_true_eq] at hB2
            simp [hB]
            exact hB2.2
          | false => simp [hB]

/-- C5: between two consecutive completed `run_circuit` calls on the same
controller, the schedule cache is hit on the second call exactly when the two
calls have identical sequences of `(name, targets)` pairs; the `params`
arrays play no role (the structural hash excludes them).  The hash is
modelled as perfect (the digest is the hashed `(name, targets)` sequence
itself). -/
theorem schedule_cache_hit_iff (invSqrt2 : A) (c c1 c2 : SimulatorController A)
    (ns ns2 : List String) (ts ts2 : List (List Nat)) (ps ps2 : List (List A))
    (r r2 : List A) (hit hit2 : Bool)
    (h1 : runCircuit invSqrt2 c ns ts ps = Except.ok (c1, r, hit))
    (h2 : runCircuit invSqrt2 c1 ns2 ts2 ps2 = Except.ok (c2, r2, hit2)) :
    hit2 = true ↔ ns2.zip ts2 = ns.zip ts := by
  obtain ⟨hlast, hsome, _⟩ :=
    runCircuit_ok_cache_fields invSqrt2 c c1 ns ts ps r hit h1
  obtain ⟨_, _, hhit2⟩ :=
    runCircuit_ok_cache_fields invSqrt2 c1 c2 ns2 ts2 ps2 r2 hit2 h2
  rw [hhit2, cacheHitOn, hlast, Bool.and_eq_true, decide_eq_true_eq]
  constructor
  · rintro ⟨h3, _⟩
    exact (Option.some.inj h3).symm
  · intro hz
    exact ⟨by rw [hz], hsome⟩

/-- Witness for C5: running `X` on qubit 0 twice with different params — the
first call misses (fresh controller), the second hits. -/
theorem schedule_cache_hit_iff_witness :
    (true = true) ↔
      (["X"].zip [[0]] : List (String × List Nat)) = ["X"].zip [[0]] :=
  schedule_cache_hit_iff (0 : Int)
    (⟨some ⟨[1, 0], 1, 32, [false]⟩, 1, "f", 1, none, none⟩ : SimulatorController Int)
    (⟨some ⟨[0, 1], 1, 32, [false]⟩, 1, "f", 1, some [[]],
      some [("X", [0])]⟩ : SimulatorController Int)
    (⟨some ⟨[1, 0], 1, 32, [false]⟩, 1, "f", 1, some [[]],
      some [("X", [0])]⟩ : SimulatorController Int)
    ["X"] ["X"] [[0]] [[0]] [[]] [[3]] [0, 0] [0, 0] false true
    (by
      have happ : applySingleQubitGate ([1, 0] : List Int) 0 (getMatrix 0 "X" []) =
          some [0, 1] := by
        rw [applySingleQubitGate, applyBlocks_cons_eq,
          show (([1, 0] : List Int).drop (2 * 2 ^ 0)) = [] from rfl, applyBlocks_nil_eq]
        decide
      have hbo : buildOps ["X"] [[0]] [[]] = Except.ok [(⟨"X", [0], []⟩ : GateOp Int)] := by
        decide
      have hexec : execGates (0 : Int) [⟨"X", [0], []⟩] ([1, 0] : List Int) =
          Except.ok [0, 1] := by
        simp only [execGates]
        rw [happ]
      rw [runCircuit_eq_of_ok 0 _ ⟨[1, 0], 1, 32, [false]⟩ _ _ _ _ _ rfl hbo hexec]
      decide)
    (by
      have happ : applySingleQubitGate ([0, 1] : List Int) 0 (getMatrix 0 "X" [3]) =
          some [1, 0] := by
        rw [applySingleQubitGate, applyBlocks_cons_eq,
          show (([0, 1] : List Int).drop (2 * 2 ^ 0)) = [] from rfl, applyBlocks_nil_eq]
        decide
      have hbo : buildOps ["X"] [[0]] [[3]] = Except.ok [(⟨"X", [0], [3]⟩ : GateOp Int)] := by
        decide
      have hexec : execGates (0 : Int) [⟨"X", [0], [3]⟩] ([0, 1] : List Int) =
          Except.ok [1, 0] := by
        simp only [execGates]
        rw [happ]
      rw [runCircuit_eq_of_ok 0 _ ⟨[0, 1], 1, 32, [false]⟩ _ _ _ _ _ rfl hbo hexec]
      decide)

/-! ## Claim C7: malformed gate lists (corrected) -/

/-- Counterexample to C7: the gate list `names = ["X"]`,
`targets = [[0], [1]]`, `params = [[], []]` has mismatched parallel-array
lengths (1 vs 2 vs 2), yet `run_circuit` succeeds — the conversion loop runs
only over `gate_names` indices and never notices the extra entries — whereas
the claim demands that every malformed list propagate an error. -/
theorem run_circuit_malformed_no_error_cex :
    (runCircuit (0 : Int)
      (⟨some ⟨[1, 0], 1, 32, [false]⟩, 1, "f", 1, none, none⟩ : SimulatorController Int)
      ["X"] [[0], [1]] [[], []]).isOk = true := by
  have happ : applySingleQubitGate ([1, 0] : List Int) 0 (getMatrix 0 "X" []) =
      some [0, 1] := by
    rw [applySingleQubitGate, applyBlocks_cons_eq,
      show (([1, 0] : List Int).drop (2 * 2 ^ 0)) = [] from rfl, applyBlocks_nil_eq]
    decide
  have hbo : buildOps ["X"] [[0], [1]] [[], []] =
      Except.ok [(⟨"X", [0], []⟩ : GateOp Int)] := by decide
  have hexec : execGates (0 : Int) [⟨"X", [0], []⟩] ([1, 0] : List Int) =
      Except.ok [0, 1] := by
    simp only [execGates]
    rw [happ]
  rw [runCircuit_eq_of_ok 0 _ ⟨[1, 0], 1, 32, [false]⟩ _ _ _ _ _ rfl hbo hexec]
  rfl

/-- C7 amended: a gate list with `gate_names` longer than `targets` or
`params` panics during the conversion loop, before any gate executes, so the
error is propagated with no side effects on the state (the controller is
returned unchanged); `targets`/`params` longer than `gate_names` are accepted
silently, the extra entries ignored.  An empty or out-of-range target is
detected only when the offending gate is dispatched, so the error carries the
state vector with all preceding gates already applied (the invocation does
have side effects in that case). -/
theorem run_circuit_malformed_inputs (invSqrt2 : A) (c : SimulatorController A)
    (mem : QuantumMemoryManager A) (ns : List String) (ts : List (List Nat))
    (ps : List (List A)) (hmem : c.memory = some mem) :
    ((ts.length < ns.length ∨ ps.length < ns.length) →
      runCircuit invSqrt2 c ns ts ps =
        Except.error (EngineError.panic "index out of bounds", c)) ∧
    (∀ ops e st1, buildOps ns ts ps = Except.ok ops →
      execGates invSqrt2 ops mem.state = Except.error (e, st1) →
      ∃ c1, runCircuit invSqrt2 c ns ts ps = Except.error (e, c1) ∧
        c1.memory = some { mem with state := st1 }) ∧
    (ns.length ≤ ts.length → ns.length ≤ ps.length →
      ∃ ops, buildOps (A := A) ns ts ps = Except.ok ops) := by
  refine ⟨?_, ?_, fun hl1 hl2 => buildOps_ok_of_lengths ns ts ps hl1 hl2⟩
  · intro h
    exact runCircuit_eq_of_build_error invSqrt2 c mem ns ts ps _ hmem
      (buildOps_error_of_short ns ts ps h)
  · intro ops e st1 hb he
    exact ⟨_, runCircuit_eq_of_exec_error invSqrt2 c mem ns ts ps ops e st1 hmem hb he, rfl⟩

/-- Witness for C7 (amended) on a concrete controller and gate list. -/
theorem run_circuit_malformed_inputs_witness :
    ((([[0]] : List (List Nat)).length < (["X", "Y"] : List String).length ∨
        ([[], []] : List (List Int)).length < (["X", "Y"] : List String).length) →
      runCircuit (0 : Int)
        (⟨some ⟨[1, 0], 1, 32, [false]⟩, 1, "f", 1, none, none⟩ : SimulatorController Int)
        ["X", "Y"] [[0]] [[], []] =
        Except.error (EngineError.panic "index out of bounds",
          (⟨some ⟨[1, 0], 1, 32, [false]⟩, 1, "f", 1, none,
            none⟩ : SimulatorController Int))) ∧
    (∀ ops e st1, buildOps ["X", "Y"] [[0]] [[], []] = Except.ok ops →
      execGates (0 : Int) ops (⟨[1, 0], 1, 32, [false]⟩ : QuantumMemoryManager Int).state =
        Except.error (e, st1) →
      ∃ c1, runCircuit (0 : Int)
          (⟨some ⟨[1, 0], 1, 32, [false]⟩, 1, "f", 1, none, none⟩ : SimulatorController Int)
          ["X", "Y"] [[0]] [[], []] = Except.error (e, c1) ∧
        c1.memory = some { (⟨[1, 0], 1, 32, [false]⟩ : QuantumMemoryManager Int) with
          state := st1 }) ∧
    ((["X", "Y"] : List String).length ≤ ([[0]] : List (List Nat)).length →
      (["X", "Y"] : List String).length ≤ ([[], []] : List (List Int)).length →
      ∃ ops, buildOps (A := Int) ["X", "Y"] [[0]] [[], []] = Except.ok ops) :=
  run_circuit_malformed_inputs 0 _ _ ["X", "Y"] [[0]] [[], []] rfl

end QPaging
